import Mathlib

/-!
# Verification of the book-ingestion pipeline (structure detection, chunking, dedup)

Shallow embedding of the core functions of the repository:

* `src/dedup/hash_utils.py`   — `normalize_for_hash`, `compute_paragraph_hash`,
  `compute_simhash64`, `hamming_distance`
* `src/dedup/dedup_service.py` — `DeduplicationService.check_duplicate` and its tiers
* `src/pdf/chunker.py`        — `split_paragraphs`, `is_header_footer`,
  `split_chapter_into_paragraphs`
* `src/pdf/semantic_chunker.py` — `split_into_big_chunks`, `hybrid_chunk_and_extract`
* `src/pdf/text_normalizer.py` — `TextNormalizer._join_pages`
* `src/pdf/chapter_detector.py` — `ChapterDetector.detect_chapters` and strategies
* `src/db/progress.py`        — `reset_stuck_chapters`

Python strings are modelled with ASCII semantics (`str.lower`, `str.strip`,
regex classes) which agree with Unicode semantics on all inputs occurring in
the theorems below.  External collaborators (SHA-256, MD5, the embedding
oracle, the LLM) are taken as function parameters: every claim proved here is
independent of their concrete values.
-/

set_option maxRecDepth 8000

/-! ## Python string primitives (ASCII model) -/

/-- ASCII whitespace: models the Python regex class `\s` and the default
`str.strip` character set (space, tab, newline, carriage return, vertical
tab, form feed). -/
def isPySpace (c : Char) : Bool :=
  c = ' ' || c = '\t' || c = '\n' || c = '\r' || c = Char.ofNat 11 || c = Char.ofNat 12

/-- `str.strip()` on a character list: drop leading and trailing whitespace. -/
def stripChars (l : List Char) : List Char :=
  ((l.dropWhile isPySpace).reverse.dropWhile isPySpace).reverse

/-- Python `text.strip()`. -/
def pyStrip (s : String) : String := String.mk (stripChars s.data)

/-- Collapse every maximal run of whitespace to a single space:
`re.sub(r"\s+", " ", text)`.  `prevSpace` records whether the previous
character belonged to a whitespace run already rewritten. -/
def collapseWsAux : Bool → List Char → List Char
  | _, [] => []
  | prevSpace, c :: rest =>
    if isPySpace c then
      if prevSpace then collapseWsAux true rest
      else ' ' :: collapseWsAux true rest
    else c :: collapseWsAux false rest

/-- `re.sub(r"\s+", " ", s)`. -/
def collapseWs (s : String) : String := String.mk (collapseWsAux false s.data)

/-! ## `src/dedup/hash_utils.py` -/

/-- `normalize_for_hash`: lower-case, collapse whitespace runs to a single
space, strip — in exactly that order, as in the source. -/
def normalize_for_hash (text : String) : String :=
  pyStrip (collapseWs (String.mk (text.data.map Char.toLower)))

/-- `compute_paragraph_hash`: SHA-256 hex digest of the normalized text.
SHA-256 itself is an external primitive, taken as the parameter
`sha256hex`; everything proved below holds for every choice of it. -/
def compute_paragraph_hash (sha256hex : String → String) (text : String) : String :=
  sha256hex (normalize_for_hash text)

/-- The list of `ngramSize`-grams of `s`: `normalized[i:i+ngram_size]` for
`i in range(len(normalized) - ngram_size + 1)`.  (`List.range (n + 1 - k)`
equals Python `range(n - k + 1)` including the empty range for `n < k`.) -/
def simhashNgrams (s : List Char) (ngramSize : Nat) : List String :=
  (List.range (s.length + 1 - ngramSize)).map (fun i => String.mk ((s.drop i).take ngramSize))

/-- The SimHash weight of bit position `i`: `+1` for every gram whose 64-bit
hash has bit `i` set, `-1` otherwise. -/
def simhashWeight (gramHash : String → Nat) (ngrams : List String) (i : Nat) : Int :=
  (ngrams.map (fun g => if Nat.testBit (gramHash g) i then (1 : Int) else -1)).sum

/-- The final fingerprint: bit `i` is set exactly when the accumulated weight
at position `i` is positive. -/
def simhashFingerprint (gramHash : String → Nat) (ngrams : List String) : Nat :=
  ((List.range 64).map
    (fun i => if 0 < simhashWeight gramHash ngrams i then 2 ^ i else 0)).sum

/-- The unsigned-to-signed conversion at the end of `compute_simhash64`:
values at or above `2^63` are shifted down by `2^64`. -/
def signed64 (fingerprint : Nat) : Int :=
  if 2 ^ 63 ≤ fingerprint then (fingerprint : Int) - 2 ^ 64 else (fingerprint : Int)

/-- `compute_simhash64`: the 64-bit SimHash of the normalized text, converted
to a signed value (PostgreSQL `BIGINT` compatible).  The per-gram 64-bit
hash (`int(hashlib.md5(...).hexdigest()[:16], 16)` in the source) is the
parameter `gramHash`; only its low 64 bits are ever read.  When the list of
n-grams is empty the source returns `0` before computing any weight. -/
def compute_simhash64 (gramHash : String → Nat) (text : String)
    (ngramSize : Nat) : Int :=
  if simhashNgrams (normalize_for_hash text).data ngramSize = [] then 0
  else
    signed64 (simhashFingerprint gramHash
      (simhashNgrams (normalize_for_hash text).data ngramSize))

/-- `bin(x).count("1")` on a natural number: the number of set bits. -/
def popcount (n : Nat) : Nat :=
  if h : n = 0 then 0 else n % 2 + popcount (n / 2)
termination_by n
decreasing_by exact Nat.div_lt_self (Nat.pos_of_ne_zero h) (by decide)

/-- Reduction of a Python integer to the unsigned 64-bit range:
`x & 0xFFFFFFFFFFFFFFFF`, i.e. `x mod 2^64` (Euclidean, non-negative). -/
def toUnsigned64 (x : Int) : Nat := (x % (2 ^ 64 : Int)).toNat

/-- `hamming_distance`: popcount of `(hash1 ^ hash2) & 0xFFFFFFFFFFFFFFFF`.
Python XOR on arbitrary-precision two-complement integers followed by the
64-bit mask equals the `Nat` XOR of the low 64 bits of each operand,
which is how it is written here. -/
def hamming_distance (hash1 hash2 : Int) : Nat :=
  popcount (toUnsigned64 hash1 ^^^ toUnsigned64 hash2)

/-- `is_fuzzy_duplicate`: Hamming distance at or below the threshold. -/
def is_fuzzy_duplicate (hash1 hash2 : Int) (threshold : Nat) : Bool :=
  hamming_distance hash1 hash2 ≤ threshold

/-! ## Supporting lemmas for the hash layer -/

theorem popcount_zero : popcount 0 = 0 := by
  unfold popcount; simp

/-- Claim C7 body, stated over the embedded `hamming_distance`. -/
theorem hamming_symm_refl (a b : Int) :
    hamming_distance a b = hamming_distance b a ∧ hamming_distance a a = 0 := by
  constructor
  · unfold hamming_distance
    rw [Nat.xor_comm]
  · unfold hamming_distance
    rw [Nat.xor_self]
    exact popcount_zero

/-- Each summand of the fingerprint is `0` or `2 ^ i`, so the 64-bit sum is
below `2 ^ 64`. -/
theorem fingerprint_lt_two_pow (f : Nat → Nat) (hf : ∀ i, f i = 0 ∨ f i = 2 ^ i) :
    ∀ k : Nat, ((List.range k).map f).sum < 2 ^ k := by
  intro k
  induction k with
  | zero => simp
  | succ k ih =>
    rw [List.range_succ, List.map_append, List.sum_append]
    have hfk : f k ≤ 2 ^ k := by
      rcases hf k with h | h <;> simp [h]
    have : ((List.range k).map f).sum + f k < 2 ^ k + 2 ^ k :=
      Nat.add_lt_add_of_lt_of_le ih hfk
    simpa [List.sum_cons, Nat.pow_succ, Nat.mul_two] using this

/-- A text shorter than the n-gram size produces no n-grams at all. -/
theorem simhashNgrams_eq_nil_of_short (l : List Char) (hshort : l.length < 3) :
    simhashNgrams l 3 = [] := by
  unfold simhashNgrams
  have hlen : l.length + 1 - 3 = 0 := by omega
  rw [hlen]
  simp

/-- The fingerprint always fits in 64 unsigned bits. -/
theorem simhashFingerprint_lt (gramHash : String → Nat) (ngrams : List String) :
    simhashFingerprint gramHash ngrams < 2 ^ 64 := by
  apply fingerprint_lt_two_pow
  intro i
  by_cases h : 0 < simhashWeight gramHash ngrams i <;> simp [h]

/-- The signed conversion lands in `[-2^63, 2^63)` for any value below `2^64`. -/
theorem signed64_range (fp : Nat) (hlt : fp < 2 ^ 64) :
    -(2 ^ 63) ≤ signed64 fp ∧ signed64 fp < 2 ^ 63 := by
  unfold signed64
  by_cases hbig : 2 ^ 63 ≤ fp
  · rw [if_pos hbig]
    have h1 : (2 ^ 63 : Int) ≤ (fp : Int) := by exact_mod_cast hbig
    have h2 : (fp : Int) < 2 ^ 64 := by exact_mod_cast hlt
    constructor <;> omega
  · rw [if_neg hbig]
    have h1 : fp < 2 ^ 63 := Nat.lt_of_not_le hbig
    have h2 : (fp : Int) < 2 ^ 63 := by exact_mod_cast h1
    have h3 : (0 : Int) ≤ (fp : Int) := Int.natCast_nonneg fp
    constructor <;> omega

/--
**C10.** `compute_simhash64` returns exactly `0` whenever the normalized text
is shorter than the n-gram size (default 3), including the empty string; and
for every input the result lies in the signed 64-bit range
`[-2^63, 2^63 - 1]` (values with the top bit set are converted by
subtracting `2^64`).
-/
theorem simhash_short_zero_and_range (gramHash : String → Nat) (text : String) :
    ((normalize_for_hash text).length < 3 → compute_simhash64 gramHash text 3 = 0) ∧
    (-(2 ^ 63) ≤ compute_simhash64 gramHash text 3 ∧
      compute_simhash64 gramHash text 3 < 2 ^ 63) := by
  constructor
  · intro hshort
    unfold compute_simhash64
    have hdata : (normalize_for_hash text).data.length < 3 := hshort
    rw [if_pos (simhashNgrams_eq_nil_of_short (normalize_for_hash text).data hdata)]
  · unfold compute_simhash64
    by_cases hempty : simhashNgrams (normalize_for_hash text).data 3 = []
    · rw [if_pos hempty]
      constructor <;> norm_num
    · rw [if_neg hempty]
      exact signed64_range _ (simhashFingerprint_lt _ _)

/-- Witness for C10: the two-character text normalizes to itself (length 2,
below the default n-gram size 3) and hashes to exactly 0. -/
theorem simhash_short_zero_and_range_witness :
    (normalize_for_hash "hi").length < 3 ∧
      compute_simhash64 (fun _ => 0) "hi" 3 = 0 :=
  ⟨by decide, (simhash_short_zero_and_range (fun _ => 0) "hi").1 (by decide)⟩

/-! ## `src/dedup/dedup_service.py` -/

/-- The fields of a stored `ParagraphChunk` row that the deduplication
service reads (`id`, `book_id`, `paragraph_hash`, `simhash64`; the latter is
nullable in the schema). -/
structure ParagraphChunk where
  id : Nat
  book_id : Nat
  paragraph_hash : String
  simhash64 : Option Int
deriving DecidableEq

/-- `DeduplicationResult` with the same fields and defaults as the Python
dataclass (`similarity_score` is a rational here; the source uses floats but
only ever produces `1.0`, `1 - d/64` and the score from the oracle). -/
structure DeduplicationResult where
  is_duplicate : Bool
  duplicate_type : Option String
  existing_chunk_id : Option Nat
  similarity_score : Option ℚ
  hamming_distance : Option Nat
deriving DecidableEq

/-- `DeduplicationService` state: the stored chunk rows stand for the
database session; `semantic_lookup` stands for `find_semantic_duplicate`
(embedding computation plus the pgvector cosine query, threshold included),
an external oracle taking the candidate text and the scope arguments. -/
structure DeduplicationService where
  chunks : List ParagraphChunk
  fuzzy_threshold : Nat
  enable_semantic : Bool
  semantic_lookup : String → Option Nat → Bool → Option (Nat × ℚ)

/-- Python truthiness of an `Optional[int]`: `None` and `0` are falsy. -/
def optNatTruthy : Option Nat → Bool
  | none => false
  | some n => !(n == 0)

/-- The scope filter applied by every tier:
`if not cross_book and book_id: query.filter(book_id == book_id)`. -/
def scopeFilter (chunks : List ParagraphChunk) (book_id : Option Nat)
    (cross_book : Bool) : List ParagraphChunk :=
  if !cross_book && optNatTruthy book_id then
    chunks.filter (fun c => some c.book_id == book_id)
  else chunks

/-- `find_exact_duplicate`: first stored chunk (in row order) whose
`paragraph_hash` equals the candidate hash, within scope. -/
def find_exact_duplicate (svc : DeduplicationService) (paragraph_hash : String)
    (book_id : Option Nat) (cross_book : Bool) : Option Nat :=
  ((scopeFilter svc.chunks book_id cross_book).find?
    (fun c => c.paragraph_hash == paragraph_hash)).map (fun c => c.id)

/-- The in-threshold fuzzy candidates: every in-scope chunk with a non-null
`simhash64` whose Hamming distance to the candidate is at or below the
threshold, paired with that distance. -/
def fuzzyCandidates (svc : DeduplicationService) (simhash64 : Int)
    (book_id : Option Nat) (cross_book : Bool) : List (Nat × Nat) :=
  ((scopeFilter svc.chunks book_id cross_book).filterMap
    (fun c => c.simhash64.map (fun h => (c.id, hamming_distance simhash64 h)))).filter
    (fun r => r.2 ≤ svc.fuzzy_threshold)

/-- Ordering of fuzzy matches by Hamming distance. -/
def distLE (a b : Nat × Nat) : Prop := a.2 ≤ b.2

instance : DecidableRel distLE := fun a b => inferInstanceAs (Decidable (a.2 ≤ b.2))

instance : IsTotal (Nat × Nat) distLE := ⟨fun a b => Nat.le_total a.2 b.2⟩

instance : IsTrans (Nat × Nat) distLE := ⟨fun _ _ _ => Nat.le_trans⟩

/-- `find_fuzzy_duplicates`: candidates sorted by ascending distance (stable,
like Python `list.sort`), truncated to `limit`.  This is the semantics of
both code paths: the in-database `ORDER BY hamming_dist ASC LIMIT :limit`
query and the Python fallback `_find_fuzzy_duplicates_fallback` that the
service drops to when `bit_count` is unsupported. -/
def find_fuzzy_duplicates (svc : DeduplicationService) (simhash64 : Int)
    (book_id : Option Nat) (cross_book : Bool) (limit : Nat) : List (Nat × Nat) :=
  (List.insertionSort distLE (fuzzyCandidates svc simhash64 book_id cross_book)).take limit

/-- `DeduplicationService.check_duplicate`: the three tiers in source order —
exact hash, then SimHash fuzzy, then (if enabled) semantic. -/
def check_duplicate (sha256hex : String → String) (gramHash : String → Nat)
    (svc : DeduplicationService) (text : String) (book_id : Option Nat)
    (cross_book : Bool) : DeduplicationResult :=
  match find_exact_duplicate svc (compute_paragraph_hash sha256hex text) book_id cross_book with
  | some cid => ⟨true, some "exact", some cid, some 1, none⟩
  | none =>
    match find_fuzzy_duplicates svc (compute_simhash64 gramHash text 3) book_id cross_book 10 with
    | best :: _ =>
      ⟨true, some "fuzzy", some best.1, some (1 - (best.2 : ℚ) / 64), some best.2⟩
    | [] =>
      if svc.enable_semantic then
        match svc.semantic_lookup text book_id cross_book with
        | some (cid, sim) => ⟨true, some "semantic", some cid, some sim, none⟩
        | none => ⟨false, none, none, none, none⟩
      else ⟨false, none, none, none, none⟩

/-! ## Lemmas about the fuzzy tier ordering -/

theorem take_eq_cons_exists {α : Type} {l : List α} {n : Nat} {x : α} {xs : List α}
    (h : l.take n = x :: xs) : ∃ ys, l = x :: ys := by
  cases l with
  | nil => simp at h
  | cons a as =>
    cases n with
    | zero => simp at h
    | succ n =>
      rw [List.take_succ_cons] at h
      injection h with h1 _
      exact ⟨as, by rw [h1]⟩

/-- The head of a non-empty fuzzy result has the smallest Hamming distance
among all in-threshold candidates. -/
theorem find_fuzzy_head_min (svc : DeduplicationService) (sh : Int)
    (bk : Option Nat) (cb : Bool) (limit : Nat) (best : Nat × Nat)
    (rest : List (Nat × Nat))
    (h : find_fuzzy_duplicates svc sh bk cb limit = best :: rest) :
    ∀ p ∈ fuzzyCandidates svc sh bk cb, best.2 ≤ p.2 := by
  unfold find_fuzzy_duplicates at h
  obtain ⟨ys, hy⟩ := take_eq_cons_exists h
  intro p hp
  have hpmem : p ∈ List.insertionSort distLE (fuzzyCandidates svc sh bk cb) :=
    ((List.perm_insertionSort distLE _).mem_iff).mpr hp
  rw [hy] at hpmem
  have hsorted := List.sorted_insertionSort distLE (fuzzyCandidates svc sh bk cb)
  rw [hy] at hsorted
  rcases List.mem_cons.mp hpmem with hpe | hpm
  · rw [hpe]
  · exact List.rel_of_sorted_cons hsorted p hpm

/-- Every in-scope chunk with a stored fingerprint within threshold appears
among the fuzzy candidates. -/
theorem mem_fuzzyCandidates (svc : DeduplicationService) (sh : Int)
    (bk : Option Nat) (cb : Bool) (c : ParagraphChunk)
    (hc : c ∈ scopeFilter svc.chunks bk cb) (h : Int)
    (hh : c.simhash64 = some h)
    (hthr : hamming_distance sh h ≤ svc.fuzzy_threshold) :
    (c.id, hamming_distance sh h) ∈ fuzzyCandidates svc sh bk cb := by
  unfold fuzzyCandidates
  apply List.mem_filter.mpr
  refine ⟨List.mem_filterMap.mpr ⟨c, hc, by rw [hh]; rfl⟩, by simpa using hthr⟩

/--
**C1.** The deduplication tiers run strictly in order exact / structural /
semantic: an exact-hash hit yields the verdict `exact` with similarity 1 and
the later tiers are never consulted (the verdict does not depend on the
fuzzy threshold, the semantic switch or the semantic oracle); the structural
tier decides only when the exact tier misses and its winner has the lowest
Hamming distance among all in-threshold candidates, reported with similarity
`1 - distance/64`; the semantic tier decides only when it is enabled and the
structural tier misses; and the verdict is `no duplicate` exactly when every
enabled tier misses.
-/
theorem dedup_tiers_strictly_ordered (sha256hex : String → String)
    (gramHash : String → Nat) (svc : DeduplicationService) (text : String)
    (book_id : Option Nat) (cross_book : Bool) :
    (∀ cid,
      find_exact_duplicate svc (compute_paragraph_hash sha256hex text) book_id cross_book
          = some cid →
      check_duplicate sha256hex gramHash svc text book_id cross_book =
          ⟨true, some "exact", some cid, some 1, none⟩ ∧
      ∀ thr enable lookup,
        check_duplicate sha256hex gramHash ⟨svc.chunks, thr, enable, lookup⟩
            text book_id cross_book =
          ⟨true, some "exact", some cid, some 1, none⟩) ∧
    (∀ best rest,
      find_exact_duplicate svc (compute_paragraph_hash sha256hex text) book_id cross_book
          = none →
      find_fuzzy_duplicates svc (compute_simhash64 gramHash text 3) book_id cross_book 10
          = best :: rest →
      check_duplicate sha256hex gramHash svc text book_id cross_book =
          ⟨true, some "fuzzy", some best.1, some (1 - (best.2 : ℚ) / 64), some best.2⟩ ∧
      ∀ c ∈ scopeFilter svc.chunks book_id cross_book, ∀ h : Int,
        c.simhash64 = some h →
        hamming_distance (compute_simhash64 gramHash text 3) h ≤ svc.fuzzy_threshold →
        best.2 ≤ hamming_distance (compute_simhash64 gramHash text 3) h) ∧
    (find_exact_duplicate svc (compute_paragraph_hash sha256hex text) book_id cross_book
        = none →
      find_fuzzy_duplicates svc (compute_simhash64 gramHash text 3) book_id cross_book 10
        = [] →
      (svc.enable_semantic = false →
        check_duplicate sha256hex gramHash svc text book_id cross_book =
          ⟨false, none, none, none, none⟩) ∧
      (∀ cid sim, svc.enable_semantic = true →
        svc.semantic_lookup text book_id cross_book = some (cid, sim) →
        check_duplicate sha256hex gramHash svc text book_id cross_book =
          ⟨true, some "semantic", some cid, some sim, none⟩)) ∧
    ((check_duplicate sha256hex gramHash svc text book_id cross_book).is_duplicate = false ↔
      find_exact_duplicate svc (compute_paragraph_hash sha256hex text) book_id cross_book
          = none ∧
      find_fuzzy_duplicates svc (compute_simhash64 gramHash text 3) book_id cross_book 10
          = [] ∧
      (svc.enable_semantic = true →
        svc.semantic_lookup text book_id cross_book = none)) := by
  refine ⟨?_, ?_, ?_, ?_⟩
  · intro cid hx
    constructor
    · unfold check_duplicate
      rw [hx]
    · intro thr enable lookup
      have hx2 : find_exact_duplicate ⟨svc.chunks, thr, enable, lookup⟩
          (compute_paragraph_hash sha256hex text) book_id cross_book = some cid := hx
      unfold check_duplicate
      rw [hx2]
  · intro best rest hx hf
    constructor
    · unfold check_duplicate
      rw [hx, hf]
    · intro c hc h hsome hthr
      exact find_fuzzy_head_min svc _ book_id cross_book 10 best rest hf _
        (mem_fuzzyCandidates svc _ book_id cross_book c hc h hsome hthr)
  · intro hx hf
    constructor
    · intro hsem
      unfold check_duplicate
      rw [hx, hf, hsem]
      simp
    · intro cid sim hsem hlook
      unfold check_duplicate
      rw [hx, hf, hsem, hlook]
      simp
  · unfold check_duplicate
    cases hx : find_exact_duplicate svc (compute_paragraph_hash sha256hex text)
        book_id cross_book with
    | some cid => simp
    | none =>
      cases hf : find_fuzzy_duplicates svc (compute_simhash64 gramHash text 3)
          book_id cross_book 10 with
      | cons best rest => simp
      | nil =>
        cases hsem : svc.enable_semantic with
        | false => simp
        | true =>
          cases hlook : svc.semantic_lookup text book_id cross_book with
          | some pr => simp [hlook]
          | none => simp [hlook]

/-- Witness for C1: a store holding one chunk whose hash matches the
candidate produces the exact verdict with similarity 1. -/
theorem dedup_tiers_strictly_ordered_witness :
    find_exact_duplicate ⟨[⟨7, 1, "h", some 0⟩], 6, false, fun _ _ _ => none⟩
        (compute_paragraph_hash (fun _ => "h") "x") none true = some 7 ∧
    check_duplicate (fun _ => "h") (fun _ => 0)
        ⟨[⟨7, 1, "h", some 0⟩], 6, false, fun _ _ _ => none⟩ "x" none true =
      ⟨true, some "exact", some 7, some 1, none⟩ :=
  ⟨by decide,
    ((dedup_tiers_strictly_ordered (fun _ => "h") (fun _ => 0)
      ⟨[⟨7, 1, "h", some 0⟩], 6, false, fun _ _ _ => none⟩ "x" none true).1 7
      (by decide)).1⟩

/--
**C6.** Texts equal after Tier-1 normalization have identical exact content
hashes, and checking the second text against a store holding the first
reports tier `exact` with similarity 1.
-/
theorem exact_tier_on_normalized_equal (sha256hex : String → String)
    (gramHash : String → Nat) (t1 t2 : String)
    (hnorm : normalize_for_hash t1 = normalize_for_hash t2)
    (cid bid thr : Nat) (enable : Bool)
    (lookup : String → Option Nat → Bool → Option (Nat × ℚ)) :
    compute_paragraph_hash sha256hex t1 = compute_paragraph_hash sha256hex t2 ∧
    check_duplicate sha256hex gramHash
      ⟨[⟨cid, bid, compute_paragraph_hash sha256hex t1,
          some (compute_simhash64 gramHash t1 3)⟩], thr, enable, lookup⟩
      t2 none true =
      ⟨true, some "exact", some cid, some 1, none⟩ := by
  have hhash : compute_paragraph_hash sha256hex t1 = compute_paragraph_hash sha256hex t2 := by
    unfold compute_paragraph_hash
    rw [hnorm]
  refine ⟨hhash, ?_⟩
  have hx : find_exact_duplicate
      ⟨[⟨cid, bid, compute_paragraph_hash sha256hex t1,
          some (compute_simhash64 gramHash t1 3)⟩], thr, enable, lookup⟩
      (compute_paragraph_hash sha256hex t2) none true = some cid := by
    unfold find_exact_duplicate scopeFilter
    simp [hhash]
  unfold check_duplicate
  rw [hx]

/-- Witness for C6: two texts differing only in case and extra spaces. -/
theorem exact_tier_on_normalized_equal_witness :
    normalize_for_hash "Hello  World" = normalize_for_hash "hello world" ∧
    (compute_paragraph_hash id "Hello  World" = compute_paragraph_hash id "hello world" ∧
      check_duplicate id (fun _ => 0)
        ⟨[⟨5, 1, compute_paragraph_hash id "Hello  World",
            some (compute_simhash64 (fun _ => 0) "Hello  World" 3)⟩],
          6, false, fun _ _ _ => none⟩
        "hello world" none true =
        ⟨true, some "exact", some 5, some 1, none⟩) :=
  ⟨by decide,
    exact_tier_on_normalized_equal id (fun _ => 0) "Hello  World" "hello world"
      (by decide) 5 1 6 false (fun _ _ _ => none)⟩

/-! ## `src/db/progress.py` -/

/-- A `ProcessingProgress` row.  `last_attempt_at` / `completed_at` stand for
the nullable datetime columns (their values are opaque to the reset logic). -/
structure ProcessingProgress where
  book_id : Nat
  chapter_id : Nat
  processing_unit : String
  status : String
  attempt_count : Nat
  error_message : Option String
  last_attempt_at : Option Nat
  completed_at : Option Nat
deriving DecidableEq

/-- The filter of `reset_stuck_chapters`:
`filter_by(book_id=book_id, processing_unit="chapter", status="processing")`. -/
def isStuckChapter (book_id : Nat) (r : ProcessingProgress) : Bool :=
  r.book_id == book_id && r.processing_unit == "chapter" && r.status == "processing"

/-- `reset_stuck_chapters`: set every matching record back to `pending` and
return the updated table together with `len(stuck)`. -/
def reset_stuck_chapters (records : List ProcessingProgress) (book_id : Nat) :
    List ProcessingProgress × Nat :=
  (records.map (fun r =>
      if isStuckChapter book_id r then { r with status := "pending" } else r),
   (records.filter (isStuckChapter book_id)).length)

/--
**C9.** On resume, every chapter-progress record of the resumed book left in
status `processing` is reset to `pending`; the operation returns the number
of records so reset; records in any other status (or of another book or
processing unit) and every field other than `status` are left unchanged.
-/
theorem reset_stuck_chapters_spec (records : List ProcessingProgress) (book_id : Nat) :
    (reset_stuck_chapters records book_id).1.length = records.length ∧
    (reset_stuck_chapters records book_id).2 =
      records.countP (fun r => isStuckChapter book_id r) ∧
    ∀ (i : Nat) r, records[i]? = some r →
      ∀ r', (reset_stuck_chapters records book_id).1[i]? = some r' →
        r'.status = (if isStuckChapter book_id r then "pending" else r.status) ∧
        r'.book_id = r.book_id ∧
        r'.chapter_id = r.chapter_id ∧
        r'.processing_unit = r.processing_unit ∧
        r'.attempt_count = r.attempt_count ∧
        r'.error_message = r.error_message ∧
        r'.last_attempt_at = r.last_attempt_at ∧
        r'.completed_at = r.completed_at ∧
        (isStuckChapter book_id r = false → r' = r) := by
  refine ⟨by simp [reset_stuck_chapters], ?_, ?_⟩
  · rw [List.countP_eq_length_filter]
    rfl
  · intro i r hir r' hir'
    have hmap : (reset_stuck_chapters records book_id).1[i]? =
        records[i]?.map (fun r =>
          if isStuckChapter book_id r then { r with status := "pending" } else r) := by
      simp [reset_stuck_chapters, List.getElem?_map]
    rw [hmap, hir] at hir'
    rw [Option.map_some'] at hir'
    by_cases hstuck : isStuckChapter book_id r = true
    · rw [if_pos hstuck] at hir'
      injection hir' with h
      rw [if_pos hstuck, ← h]
      refine ⟨rfl, rfl, rfl, rfl, rfl, rfl, rfl, rfl, ?_⟩
      intro hfalse
      rw [hstuck] at hfalse
      exact absurd hfalse (by simp)
    · have hstuck' : isStuckChapter book_id r = false := by
        cases hb : isStuckChapter book_id r
        · rfl
        · exact absurd hb hstuck
      rw [if_neg hstuck] at hir'
      injection hir' with h
      rw [if_neg hstuck, ← h]
      exact ⟨rfl, rfl, rfl, rfl, rfl, rfl, rfl, rfl, fun _ => rfl⟩

/-- Witness for C9: a two-record table with one stuck `processing` chapter
and one `completed` chapter of the same book. -/
theorem reset_stuck_chapters_spec_witness :
    ([⟨1, 10, "chapter", "processing", 2, none, none, none⟩,
      ⟨1, 11, "chapter", "completed", 1, none, some 3, some 4⟩] :
        List ProcessingProgress)[0]? =
      some ⟨1, 10, "chapter", "processing", 2, none, none, none⟩ ∧
    (reset_stuck_chapters
      [⟨1, 10, "chapter", "processing", 2, none, none, none⟩,
       ⟨1, 11, "chapter", "completed", 1, none, some 3, some 4⟩] 1).1[0]? =
      some ⟨1, 10, "chapter", "pending", 2, none, none, none⟩ ∧
    (⟨1, 10, "chapter", "pending", 2, none, none, none⟩ :
        ProcessingProgress).status =
      (if isStuckChapter 1 ⟨1, 10, "chapter", "processing", 2, none, none, none⟩
        then "pending"
        else (⟨1, 10, "chapter", "processing", 2, none, none, none⟩ :
          ProcessingProgress).status) :=
  ⟨by decide, by decide,
    ((reset_stuck_chapters_spec
      [⟨1, 10, "chapter", "processing", 2, none, none, none⟩,
       ⟨1, 11, "chapter", "completed", 1, none, some 3, some 4⟩] 1).2.2 0
      ⟨1, 10, "chapter", "processing", 2, none, none, none⟩ (by decide)
      ⟨1, 10, "chapter", "pending", 2, none, none, none⟩ (by decide)).1⟩

/-! ## `src/pdf/text_normalizer.py` — `TextNormalizer._join_pages` -/

/-- The boundary characters tested on the last character of the previous
page: `.`, `!`, `?`, `:`, double quote, single quote, newline — exactly the
Python literal (which contains no brackets). -/
def sentenceEndChars : List Char :=
  ['.', '!', '?', ':', Char.ofNat 34, Char.ofNat 39, '\n']

/-- `prev_text[-1] in chars` on a possibly empty string. -/
def lastCharMem (s : String) (chars : List Char) : Bool :=
  match s.data.getLast? with
  | none => false
  | some c => chars.contains c

/-- `"".join(result)` — concatenation of the accumulated fragments. -/
def concatStrings : List String → String
  | [] => ""
  | s :: rest => s ++ concatStrings rest

/-- The loop of `_join_pages`: strip each page, skip empty ones, and before
each subsequent page append a single space when the previous page does not
end in a boundary character, a newline otherwise. -/
def joinPagesAux : List String → List String → List String
  | acc, [] => acc
  | acc, page :: rest =>
    let p := pyStrip page
    if p = "" then joinPagesAux acc rest
    else
      match acc.getLast? with
      | none => joinPagesAux (acc ++ [p]) rest
      | some prev =>
        let sep := if prev ≠ "" ∧ ¬ lastCharMem prev sentenceEndChars = true
          then " " else "\n"
        joinPagesAux (acc ++ [sep, p]) rest

/-- `TextNormalizer._join_pages`. -/
def join_pages (pages : List String) : String :=
  concatStrings (joinPagesAux [] pages)

/-- The declarative join rule over the cleaned page list (stripped, empties
dropped): consecutive pages are separated by a newline exactly when the
previous page ends in one of `sentenceEndChars`, by a single space
otherwise. -/
def joinPagesRule : List String → String
  | [] => ""
  | [p] => p
  | p :: q :: rest =>
    p ++ (if lastCharMem p sentenceEndChars then "\n" else " ") ++ joinPagesRule (q :: rest)

theorem concatStrings_append (l1 l2 : List String) :
    concatStrings (l1 ++ l2) = concatStrings l1 ++ concatStrings l2 := by
  induction l1 with
  | nil => simp [concatStrings]
  | cons s rest ih => simp [concatStrings, ih, String.append_assoc]

/-- The cleaned page list: `page.strip()` applied, empty results skipped. -/
def cleanedPages (pages : List String) : List String :=
  (pages.map pyStrip).filter (fun p => p != "")

theorem joinPagesAux_spec (pages : List String) :
    ∀ (acc : List String) (prev : String), prev ≠ "" →
      concatStrings (joinPagesAux (acc ++ [prev]) pages) =
        concatStrings acc ++ joinPagesRule (prev :: cleanedPages pages) := by
  induction pages with
  | nil =>
    intro acc prev _
    rw [joinPagesAux, concatStrings_append]
    simp [cleanedPages, joinPagesRule, concatStrings]
  | cons page rest ih =>
    intro acc prev hprev
    rw [joinPagesAux]
    by_cases hempty : pyStrip page = ""
    · rw [if_pos hempty]
      have hclean : cleanedPages (page :: rest) = cleanedPages rest := by
        simp [cleanedPages, hempty]
      rw [hclean]
      exact ih acc prev hprev
    · rw [if_neg hempty]
      rw [List.getLast?_concat]
      have hcl : (pyStrip page != "") = true := by
        simpa using hempty
      have hclean : cleanedPages (page :: rest) = pyStrip page :: cleanedPages rest := by
        simp [cleanedPages, List.filter_cons, hcl]
      have hsep :
          (if prev ≠ "" ∧ ¬ lastCharMem prev sentenceEndChars = true then " " else "\n")
            = (if lastCharMem prev sentenceEndChars then "\n" else " ") := by
        by_cases hb : lastCharMem prev sentenceEndChars = true
        · rw [if_pos hb, if_neg]
          intro ⟨_, hcon⟩
          exact hcon hb
        · rw [if_neg hb, if_pos ⟨hprev, hb⟩]
      show concatStrings (joinPagesAux ((acc ++ [prev]) ++
          [(if prev ≠ "" ∧ ¬ lastCharMem prev sentenceEndChars = true then " " else "\n"),
            pyStrip page]) rest) =
        concatStrings acc ++ joinPagesRule (prev :: cleanedPages (page :: rest))
      have hassoc : (acc ++ [prev]) ++
          [(if prev ≠ "" ∧ ¬ lastCharMem prev sentenceEndChars = true then " " else "\n"),
            pyStrip page] =
          (acc ++ [prev,
            (if prev ≠ "" ∧ ¬ lastCharMem prev sentenceEndChars = true then " " else "\n")])
            ++ [pyStrip page] := by
        simp
      rw [hassoc, ih _ (pyStrip page) hempty, hclean, concatStrings_append, hsep]
      simp [concatStrings, joinPagesRule, String.append_assoc]

/--
**C8 (amended).** The page-join stage strips each page, skips empty pages,
and joins each remaining consecutive pair with a newline exactly when the
previous (stripped) page ends in one of `. ! ? :`, double quote, single
quote (the boundary set of the source, which contains no brackets), and
with a single space otherwise.
-/
theorem join_pages_eq_rule (pages : List String) :
    join_pages pages = joinPagesRule (cleanedPages pages) := by
  unfold join_pages
  induction pages with
  | nil => rfl
  | cons page rest ih =>
    by_cases hempty : pyStrip page = ""
    · have hstep : joinPagesAux [] (page :: rest) = joinPagesAux [] rest := by
        simp [joinPagesAux, hempty]
      have hclean : cleanedPages (page :: rest) = cleanedPages rest := by
        simp [cleanedPages, List.filter_cons, hempty]
      rw [hstep, hclean]
      exact ih
    · have hstep : joinPagesAux [] (page :: rest) = joinPagesAux ([] ++ [pyStrip page]) rest := by
        simp [joinPagesAux, hempty]
      have hcl : (pyStrip page != "") = true := by
        simpa using hempty
      have hclean : cleanedPages (page :: rest) = pyStrip page :: cleanedPages rest := by
        simp [cleanedPages, List.filter_cons, hcl]
      rw [hstep, joinPagesAux_spec rest [] (pyStrip page) hempty, hclean]
      simp [concatStrings]

/--
**C8 counterexample.** The first page ends in a closing bracket, so the
claim as stated (brackets are boundary characters, hence a newline join)
requires the result to be the two pages joined by a newline; the source
joins them with a single space because its boundary set contains no
brackets.
-/
theorem join_pages_bracket_counterexample :
    join_pages ["(a)", "b"] = "(a) b" ∧
      ¬ join_pages ["(a)", "b"] = "(a)" ++ "\n" ++ "b" := by
  constructor
  · decide
  · decide

/-! ## `src/pdf/chunker.py` — configuration and regex models -/

def MIN_PARAGRAPH_LENGTH : Nat := 150

def MAX_PARAGRAPH_LENGTH : Nat := 1000

def TARGET_SENTENCES : Nat := 5

/-- The regex class `\w` (ASCII model): letters, digits, underscore. -/
def isWordChar (c : Char) : Bool := c.isAlphanum || c == '_'

/-- `re.sub(r"^\d+\s+", "", text, flags=re.MULTILINE)`: at each line start, a
maximal run of one or more digits followed by a maximal run of one or more
whitespace characters (which may span line breaks) is removed; scanning
resumes after the removed run, which is a line start again exactly when the
last removed character was a newline.  Positions that are not line starts
can never match because of the `^` anchor.  The structural `fuel` argument
(initialized to the input length) dominates the number of scan steps, each
of which consumes at least one character. -/
def dropFootnoteAux : Nat → Bool → List Char → List Char
  | 0, _, l => l
  | _, _, [] => []
  | fuel + 1, atLineStart, c :: rest =>
    if atLineStart && c.isDigit &&
        (match rest.dropWhile Char.isDigit with
          | d :: _ => isPySpace d
          | [] => false) then
      let afterDigits := rest.dropWhile Char.isDigit
      let ws := afterDigits.takeWhile isPySpace
      let afterWs := afterDigits.dropWhile isPySpace
      dropFootnoteAux fuel (ws.getLast? == some '\n') afterWs
    else
      c :: dropFootnoteAux fuel (c == '\n') rest

/-- The characters of `l` after its last occurrence of a newline. -/
def charsAfterLastNewline (l : List Char) : List Char :=
  (l.reverse.takeWhile (fun c => !(c == '\n'))).reverse

/-- One attempt to match `\s*\|\s*$` (MULTILINE) at the start of `l`.  The
leading `\s*` must reach a `|` (shorter whitespace prefixes end on a
whitespace character, never on `|`); after the `|` the greedy `\s*`
followed by `$` consumes everything when the string ends there, otherwise
backtracks to stop immediately before the last newline of the following
whitespace run; with no such newline the match fails.  On success the
suffix remaining after the match is returned. -/
def pipeTryMatch (l : List Char) : Option (List Char) :=
  match l.dropWhile isPySpace with
  | '|' :: tail =>
    let r := tail.takeWhile isPySpace
    let afterR := tail.dropWhile isPySpace
    if afterR = [] then some []
    else if r.contains '\n' then some ('\n' :: (charsAfterLastNewline r ++ afterR))
    else none
  | _ => none


/-- `re.sub(r"\s*\|\s*$", "", text, flags=re.MULTILINE)`: scan left to
right, replacing each non-overlapping match with nothing.  Every successful
match consumes at least the `|`, so a fuel of the input length dominates
the number of scan steps. -/
def removePipesAux : Nat → List Char → List Char
  | 0, l => l
  | _, [] => []
  | fuel + 1, c :: rest =>
    match pipeTryMatch (c :: rest) with
    | some remaining => removePipesAux fuel remaining
    | none => c :: removePipesAux fuel rest

/-- `re.sub(r"(\w+)-\s*\n\s*(\w+)", r"\1\2", text)`: a maximal word run, a
hyphen, a whitespace run containing at least one newline (the greedy
`\s*\n\s*` consumes exactly the maximal whitespace run, placing the `\n` at
its last newline), and a maximal word run are replaced by the two word runs
joined.  A match must begin on a word character, and whenever the attempt
starting at the first character of a word run fails, the attempts starting
inside the same run fail for the same reason, so scanning skips to the end
of the run. -/
def fixHyphenAux : Nat → List Char → List Char
  | 0, l => l
  | _, [] => []
  | fuel + 1, c :: rest =>
    if isWordChar c then
      match rest.dropWhile isWordChar with
      | '-' :: tail =>
        if (tail.takeWhile isPySpace).contains '\n' then
          match tail.dropWhile isPySpace with
          | d :: tail2 =>
            if isWordChar d then
              (c :: rest.takeWhile isWordChar) ++
                (d :: tail2.takeWhile isWordChar) ++
                fixHyphenAux fuel (tail2.dropWhile isWordChar)
            else (c :: rest.takeWhile isWordChar) ++ '-' :: fixHyphenAux fuel tail
          | [] => (c :: rest.takeWhile isWordChar) ++ '-' :: fixHyphenAux fuel tail
        else (c :: rest.takeWhile isWordChar) ++ '-' :: fixHyphenAux fuel tail
      | other => (c :: rest.takeWhile isWordChar) ++ fixHyphenAux fuel other
    else c :: fixHyphenAux fuel rest

/-- `text.split("\n\n")`: split on each non-overlapping occurrence of two
consecutive newlines, left to right. -/
def splitDoubleNewlineAux : List Char → List Char → List (List Char)
  | cur, [] => [cur.reverse]
  | cur, '\n' :: '\n' :: rest => cur.reverse :: splitDoubleNewlineAux [] rest
  | cur, c :: rest => splitDoubleNewlineAux (c :: cur) rest

/-- `text.split("\n\n")` on strings. -/
def splitDoubleNewline (s : String) : List String :=
  (splitDoubleNewlineAux [] s.data).map String.mk

/-- Sentence-terminal characters of the chunker: `.`, `!`, `?`. -/
def isSentEnd (c : Char) : Bool := c == '.' || c == '!' || c == '?'

/-- `re.split(r"(?<=[.!?])\s+", normalized)`: split at each maximal
whitespace run immediately preceded by a sentence-terminal character. -/
def splitSentencesAux : Nat → List Char → Option Char → List Char → List (List Char)
  | 0, cur, _, l => [cur.reverse ++ l]
  | _, cur, _, [] => [cur.reverse]
  | fuel + 1, cur, prev, c :: rest =>
    if isPySpace c && (match prev with | some p => isSentEnd p | none => false) then
      cur.reverse :: splitSentencesAux fuel [] none (rest.dropWhile isPySpace)
    else
      splitSentencesAux fuel (c :: cur) (some c) rest

def splitSentences (s : String) : List String :=
  (splitSentencesAux s.data.length [] none s.data).map String.mk

/-- `sep.join(parts)`. -/
def joinSep (sep : String) : List String → String
  | [] => ""
  | [s] => s
  | s :: rest => s ++ sep ++ joinSep sep rest

/-- The sentence-accumulation loop of `split_paragraphs` for an over-long
paragraph: append each sentence to `current`; once the target sentence
count or the maximum length is reached, flush the joined text as a chunk
when it meets the minimum length; flush the remainder at the end under the
same minimum-length condition. -/
def accumulateSentences (current : List String) : List String → List String
  | [] =>
    if current ≠ [] ∧ MIN_PARAGRAPH_LENGTH ≤ (joinSep " " current).length
      then [joinSep " " current] else []
  | sent :: rest =>
    let current2 := current ++ [sent]
    let chunk_text := joinSep " " current2
    if TARGET_SENTENCES ≤ current2.length ∨ MAX_PARAGRAPH_LENGTH ≤ chunk_text.length then
      (if MIN_PARAGRAPH_LENGTH ≤ chunk_text.length then [chunk_text] else []) ++
        accumulateSentences [] rest
    else
      accumulateSentences current2 rest

/-- The body of the per-paragraph loop of `split_paragraphs` (steps 2–3):
strip, normalize whitespace, pass through in-bounds and under-min
paragraphs, re-split over-max paragraphs on sentence boundaries. -/
def paraChunks (para : String) : List String :=
  let p := pyStrip para
  if p = "" then []
  else
    let normalized := collapseWs p
    if MIN_PARAGRAPH_LENGTH ≤ normalized.length ∧
        normalized.length ≤ MAX_PARAGRAPH_LENGTH then
      [normalized]
    else if normalized.length < MIN_PARAGRAPH_LENGTH then
      [normalized]
    else
      accumulateSentences [] (splitSentences normalized)

/-- Step 4 of `split_paragraphs`: merge consecutive short chunks.  The
buffer starts empty; a short buffer absorbs the next chunk with a single
space; a buffer at or above the minimum is flushed; the final buffer is
kept only when non-empty and at or above the minimum. -/
def mergeShortChunks (buffer : String) : List String → List String
  | [] =>
    if buffer ≠ "" ∧ MIN_PARAGRAPH_LENGTH ≤ buffer.length then [buffer] else []
  | chunk :: rest =>
    if buffer.length = 0 then mergeShortChunks chunk rest
    else if buffer.length < MIN_PARAGRAPH_LENGTH then
      mergeShortChunks (buffer ++ " " ++ chunk) rest
    else
      buffer :: mergeShortChunks chunk rest

/-- Python `str.isupper` (ASCII model): at least one letter and no
lowercase letter. -/
def isUpperString (s : String) : Bool :=
  s.data.any (fun c => c.isAlpha) && s.data.all (fun c => !(c.isLower))

/-- `re.match(r"^(page|chapter)\s+\d+$", text, re.IGNORECASE)`. -/
def matchesPageChapter (l : List Char) : Bool :=
  let low := l.map Char.toLower
  let tryKw (kw : List Char) : Bool :=
    low.take kw.length == kw &&
      (let rest := low.drop kw.length
       let ws := rest.takeWhile isPySpace
       let afterWs := rest.dropWhile isPySpace
       ws ≠ [] && afterWs ≠ [] && afterWs.all Char.isDigit)
  tryKw ['p', 'a', 'g', 'e'] || tryKw ['c', 'h', 'a', 'p', 't', 'e', 'r']

/-- `is_header_footer`: short lines, page numbers, page/chapter stubs and
short all-caps lines are treated as headers or footers. -/
def is_header_footer (text : String) : Bool :=
  let t := pyStrip text
  if t.length < 20 then true
  else if t.data ≠ [] ∧ t.data.all Char.isDigit then true
  else if matchesPageChapter t.data then true
  else if isUpperString t ∧ t.length < 50 then true
  else false

/-- `split_paragraphs`: the five-step hybrid pipeline — artifact cleanup,
blank-line split, per-paragraph normalization and length handling, merge of
short chunks, and the final header/footer and minimum-length filter. -/
def split_paragraphs (page_text : String) : List String :=
  if page_text = "" ∨ (pyStrip page_text).length < MIN_PARAGRAPH_LENGTH then []
  else
    let text1 := String.mk (dropFootnoteAux page_text.data.length true page_text.data)
    let text2 := String.mk (removePipesAux text1.data.length text1.data)
    let text3 := String.mk (fixHyphenAux text2.data.length text2.data)
    let paragraphs := splitDoubleNewline text3
    let chunks := (paragraphs.map paraChunks).flatten
    let merged := mergeShortChunks "" chunks
    merged.filter (fun c => !(is_header_footer c) && MIN_PARAGRAPH_LENGTH ≤ c.length)

/--
**C4 (amended).** Every chunk emitted by the rule-based chunker has text
length at least the configured minimum (150) — including the terminal chunk
of a chapter, which the final filter also subjects to the minimum; the
configured maximum (1000) is however not an upper bound: a paragraph whose
sentence re-split produces an over-long single sentence, or a merge of
undersized fragments, may exceed it.
-/
theorem split_paragraphs_min_length (page_text : String) :
    ∀ c ∈ split_paragraphs page_text, MIN_PARAGRAPH_LENGTH ≤ c.length := by
  intro c hc
  unfold split_paragraphs at hc
  by_cases hguard : page_text = "" ∨ (pyStrip page_text).length < MIN_PARAGRAPH_LENGTH
  · rw [if_pos hguard] at hc
    simp at hc
  · rw [if_neg hguard] at hc
    simp only [List.mem_filter, Bool.and_eq_true, decide_eq_true_eq] at hc
    exact hc.2.2

/-- Witness for C4: a 200-character paragraph is returned unchanged and
meets the minimum. -/
theorem split_paragraphs_min_length_witness :
    String.mk (List.replicate 200 'a') ∈
      split_paragraphs (String.mk (List.replicate 200 'a')) ∧
    MIN_PARAGRAPH_LENGTH ≤ (String.mk (List.replicate 200 'a')).length :=
  ⟨by decide,
    split_paragraphs_min_length (String.mk (List.replicate 200 'a'))
      (String.mk (List.replicate 200 'a')) (by decide)⟩

/--
**C4 counterexample.** A page consisting of a single 1001-character sentence
(no sentence-terminal punctuation) is emitted as one chunk of length 1001,
above the configured maximum of 1000: chunk lengths are not bounded by the
configured maximum.
-/
theorem split_paragraphs_max_length_counterexample :
    (split_paragraphs (String.mk (List.replicate 1001 'a'))).map String.length
      = [1001] ∧
    MAX_PARAGRAPH_LENGTH < 1001 := by
  constructor
  · decide
  · decide

/-! ## `src/pdf/chunker.py` — hierarchical chunking -/

/-- `text.split("\n")`. -/
def splitNewlineAux : List Char → List Char → List (List Char)
  | cur, [] => [cur.reverse]
  | cur, '\n' :: rest => cur.reverse :: splitNewlineAux [] rest
  | cur, c :: rest => splitNewlineAux (c :: cur) rest

def splitLines (s : String) : List String :=
  (splitNewlineAux [] s.data).map String.mk

/-- Consume `\d+` (at least one digit); return the rest on success. -/
def consumeDigits1 (l : List Char) : Option (List Char) :=
  if l.takeWhile Char.isDigit = [] then none else some (l.dropWhile Char.isDigit)

/-- Consume `(\.\d+)` exactly `k` times. -/
def consumeDotDigits : Nat → List Char → Option (List Char)
  | 0, l => some l
  | k + 1, l =>
    match l with
    | '.' :: rest =>
      match consumeDigits1 rest with
      | some rest2 => consumeDotDigits k rest2
      | none => none
    | _ => none

/-- `re.match` of a dotted-numeric section heading against a stripped line:
`^\d+(\.\d+){numDots}\s+[A-Z][^\n]{4,maxTitleLen}$`.  The stripped line
contains no newline, so `[^\n]` accepts any character. -/
def matchSectionHeading (numDots maxTitleLen : Nat) (l : List Char) : Bool :=
  match consumeDigits1 l with
  | none => false
  | some r1 =>
    match consumeDotDigits numDots r1 with
    | none => false
    | some r2 =>
      r2.takeWhile isPySpace ≠ [] &&
        (match r2.dropWhile isPySpace with
          | t :: title => t.isUpper && 4 ≤ title.length && title.length ≤ maxTitleLen
          | [] => false)

/-- The two section patterns of `_detect_sections`
(`1.1 Title` with title 4–80, `1.1.1 Title` with title 4–60). -/
def matchesSectionPattern (l : List Char) : Bool :=
  matchSectionHeading 1 80 l || matchSectionHeading 2 60 l

/-- Replace the end offset of the last recorded section. -/
def setLastSectionEnd (sections : List (Option String × Nat × Nat)) (pos : Nat) :
    List (Option String × Nat × Nat) :=
  match sections.getLast? with
  | none => sections
  | some last => sections.dropLast ++ [(last.1, last.2.1, pos)]

/-- The line loop of `_detect_sections`: on a matching line, close the
previous section at the current offset (adding an untitled prelude section
only in the dead branch the source keeps for it) and open a new section
running to the end of the text. -/
def detectSectionsAux (total : Nat) :
    List String → Nat → Option String → List (Option String × Nat × Nat) →
      List (Option String × Nat × Nat)
  | [], _, _, sections => sections
  | line :: rest, pos, lastTitle, sections =>
    let ls := pyStrip line
    if matchesSectionPattern ls.data then
      let sections2 :=
        if lastTitle ≠ none ∨ sections ≠ [] then
          if sections = [] then [(none, 0, pos)]
          else setLastSectionEnd sections pos
        else sections
      detectSectionsAux total rest (pos + line.length + 1) (some ls)
        (sections2 ++ [(some ls, pos, total)])
    else
      detectSectionsAux total rest (pos + line.length + 1) lastTitle sections

/-- `_detect_sections`: section markers `(title?, start, end)` over the
chapter text; a chapter without section headings is one untitled section. -/
def detect_sections (text : String) : List (Option String × Nat × Nat) :=
  let out := detectSectionsAux text.length (splitLines text) 0 none []
  if out = [] then [(none, 0, text.length)] else out

/-- `HierarchicalChunk` with the fields of the source dataclass. -/
structure HierarchicalChunk where
  text : String
  chapter_id : Option Nat
  chapter_title : Option String
  section_id : Option Nat
  section_title : Option String
  paragraph_index : Nat
  chapter_paragraph_index : Nat
  start_char : Nat
  end_char : Nat
deriving DecidableEq

/-- Python `hay.find(sub, start)`: smallest index at or after `start` where
`sub` occurs (`none` for the -1 sentinel). -/
def strFindFrom (hay sub : List Char) (start : Nat) : Option Nat :=
  (List.range (hay.length + 1)).find?
    (fun i => decide (start ≤ i) && ((hay.drop i).take sub.length == sub))

/-- The per-paragraph position-tracking loop of
`split_chapter_into_paragraphs`: locate each paragraph at or after the
current position (falling back to the current position when not found) and
emit a chunk with advancing global and chapter-local indices. -/
def chunksOfParas (chapter_text : String) (chapter_id : Option Nat)
    (chapter_title section_title : Option String) :
    Nat → Nat → Nat → List String → List HierarchicalChunk × Nat × Nat
  | gidx, cidx, _, [] => ([], gidx, cidx)
  | gidx, cidx, pos, para :: rest =>
    let para_start := (strFindFrom chapter_text.data para.data pos).getD pos
    let para_end := para_start + para.length
    let next := chunksOfParas chapter_text chapter_id chapter_title section_title
      (gidx + 1) (cidx + 1) para_end rest
    (⟨para, chapter_id, chapter_title, none, section_title, gidx, cidx,
        para_start, para_end⟩ :: next.1, next.2)

/-- The per-section loop of `split_chapter_into_paragraphs`. -/
def sectionsLoop (chapter_text : String) (chapter_id : Option Nat)
    (chapter_title : Option String) :
    Nat → Nat → List (Option String × Nat × Nat) → List HierarchicalChunk
  | _, _, [] => []
  | gidx, cidx, (title, sstart, send) :: rest =>
    let section_text := String.mk ((chapter_text.data.drop sstart).take (send - sstart))
    let paras := split_paragraphs section_text
    let step := chunksOfParas chapter_text chapter_id chapter_title title
      gidx cidx sstart paras
    step.1 ++ sectionsLoop chapter_text chapter_id chapter_title step.2.1 step.2.2 rest

/-- `split_chapter_into_paragraphs`: guard on the stripped chapter length,
then section detection and per-section paragraph splitting. -/
def split_chapter_into_paragraphs (chapter_text : String) (chapter_id : Option Nat)
    (chapter_title : Option String) (base_paragraph_index : Nat) :
    List HierarchicalChunk :=
  if chapter_text = "" ∨ (pyStrip chapter_text).length < MIN_PARAGRAPH_LENGTH then []
  else
    sectionsLoop chapter_text chapter_id chapter_title base_paragraph_index 0
      (detect_sections chapter_text)

/-! ## `src/pdf/semantic_chunker.py` -/

def BIG_CHUNK_MAX_SIZE : Nat := 2500

def BIG_CHUNK_MIN_SIZE : Nat := 500

def SMALL_CHUNK_MIN_SIZE : Nat := 100

/-- `SemanticParagraph`: one unit of the structured LLM output. -/
structure SemanticParagraph where
  text : String
  concept : String
  section_title : Option String
deriving DecidableEq

/-- The accumulation loop of `split_into_big_chunks`: paragraphs (stripped,
whitespace-normalized, empties skipped) are appended to the current chunk
until adding one would exceed `max_size`; each flushed chunk is kept only
when it reaches `BIG_CHUNK_MIN_SIZE`.  `current_len` tracks the sum of the
paragraph lengths exactly as the source does (without separators). -/
def splitBigAux (max_size : Nat) :
    List String → Nat → List String → List String
  | current, _, [] =>
    if current ≠ [] then
      (if BIG_CHUNK_MIN_SIZE ≤ (joinSep "\n\n" current).length
        then [joinSep "\n\n" current] else [])
    else []
  | current, current_len, para :: rest =>
    let p := pyStrip para
    if p = "" then splitBigAux max_size current current_len rest
    else
      let p2 := collapseWs p
      if max_size < current_len + p2.length ∧ current ≠ [] then
        (if BIG_CHUNK_MIN_SIZE ≤ (joinSep "\n\n" current).length
          then [joinSep "\n\n" current] else []) ++
          splitBigAux max_size [p2] p2.length rest
      else
        splitBigAux max_size (current ++ [p2]) (current_len + p2.length) rest

/-- `split_into_big_chunks`. -/
def split_into_big_chunks (text : String) (max_size : Nat) : List String :=
  splitBigAux max_size [] 0 (splitDoubleNewline text)

/-- Python truthiness of an `Optional[str]` combined with the
`lower() != "null"` test of the source. -/
def sectionTitleUsable (t : Option String) : Bool :=
  match t with
  | none => false
  | some s => s ≠ "" && String.mk (s.data.map Char.toLower) ≠ "null"

/-- The inner loop of `hybrid_chunk_and_extract` over the semantic
paragraphs of one coarse chunk: filter under-length paragraphs, carry the
section state forward (persisting a new section through the store when a
session, chapter id and book id are all present), locate each paragraph by
its first 50 characters, and emit `(chunk, concept)` pairs.  Returns the
final `(global index, chapter index, section, section id)` state. -/
def hybridParas (chapter_text : String) (chapter_id book_id : Option Nat)
    (chapter_title : Option String) (sectionStore : Option (String → Nat)) :
    Nat → Nat → Option String → Option Nat → List SemanticParagraph →
      List (HierarchicalChunk × String) × Nat × Nat × Option String × Option Nat
  | gidx, cidx, curSec, curSecId, [] => ([], gidx, cidx, curSec, curSecId)
  | gidx, cidx, curSec, curSecId, para :: rest =>
    if (pyStrip para.text).length < SMALL_CHUNK_MIN_SIZE then
      hybridParas chapter_text chapter_id book_id chapter_title sectionStore
        gidx cidx curSec curSecId rest
    else
      let curSec2 := if sectionTitleUsable para.section_title
        then para.section_title else curSec
      let curSecId2 :=
        if sectionTitleUsable para.section_title then
          match sectionStore with
          | some store =>
            if optNatTruthy chapter_id && optNatTruthy book_id then
              some (store (para.section_title.getD ""))
            else curSecId
          | none => curSecId
        else curSecId
      let para_start := (strFindFrom chapter_text.data (para.text.data.take 50) 0).getD 0
      let para_end := para_start + para.text.length
      let next := hybridParas chapter_text chapter_id book_id chapter_title sectionStore
        (gidx + 1) (cidx + 1) curSec2 curSecId2 rest
      ((⟨para.text, chapter_id, chapter_title, curSecId2, curSec2, gidx, cidx,
          para_start, para_end⟩, para.concept) :: next.1, next.2)

/-- The outer loop of `hybrid_chunk_and_extract` over coarse chunks: each
chunk goes to the LLM (`none` modelling an exception), falling back to one
paragraph holding the whole chunk with an empty concept; the index and
section state threads across coarse chunks. -/
def hybridBig (chapter_text : String) (chapter_id book_id : Option Nat)
    (chapter_title : Option String) (sectionStore : Option (String → Nat))
    (llm : String → Option (List SemanticParagraph)) :
    Nat → Nat → Option String → Option Nat → List String →
      List (HierarchicalChunk × String)
  | _, _, _, _, [] => []
  | gidx, cidx, curSec, curSecId, bc :: rest =>
    let semantic_paragraphs := (llm bc).getD [⟨bc, "", none⟩]
    let step := hybridParas chapter_text chapter_id book_id chapter_title sectionStore
      gidx cidx curSec curSecId semantic_paragraphs
    step.1 ++ hybridBig chapter_text chapter_id book_id chapter_title sectionStore llm
      step.2.1 step.2.2.1 step.2.2.2.1 step.2.2.2.2 rest

/-- `hybrid_chunk_and_extract`: guard on the stripped chapter length, then
rule-based coarse splitting followed by the LLM splitting loop. -/
def hybrid_chunk_and_extract (llm : String → Option (List SemanticParagraph))
    (sectionStore : Option (String → Nat)) (chapter_text : String)
    (chapter_id : Option Nat) (chapter_title : Option String)
    (book_id : Option Nat) (base_paragraph_index : Nat) :
    List (HierarchicalChunk × String) :=
  if chapter_text = "" ∨ (pyStrip chapter_text).length < SMALL_CHUNK_MIN_SIZE then []
  else
    hybridBig chapter_text chapter_id book_id chapter_title sectionStore llm
      base_paragraph_index 0 none none
      (split_into_big_chunks chapter_text BIG_CHUNK_MAX_SIZE)

/-! ## Length lemmas for the chunking guards -/

theorem stripChars_length_le (l : List Char) : (stripChars l).length ≤ l.length := by
  unfold stripChars
  have h1 := (List.dropWhile_sublist (l := l) isPySpace).length_le
  have h2 := (List.dropWhile_sublist (l := (l.dropWhile isPySpace).reverse) isPySpace).length_le
  simp only [List.length_reverse] at h2 ⊢
  omega

theorem collapseWsAux_length_le : ∀ (b : Bool) (l : List Char),
    (collapseWsAux b l).length ≤ l.length := by
  intro b l
  induction l generalizing b with
  | nil => simp [collapseWsAux]
  | cons c rest ih =>
    unfold collapseWsAux
    by_cases hc : isPySpace c = true
    · rw [if_pos hc]
      cases b with
      | true =>
        simp only [if_true, List.length_cons]
        have := ih true
        omega
      | false =>
        simp only [Bool.false_eq_true, if_false, List.length_cons]
        have := ih true
        omega
    · rw [if_neg hc]
      simp only [List.length_cons]
      have := ih false
      omega

/-- Stripping plus whitespace normalization never lengthens a string. -/
theorem collapseWs_pyStrip_length_le (s : String) :
    (collapseWs (pyStrip s)).length ≤ s.length := by
  have h1 : (collapseWs (pyStrip s)).length ≤ (pyStrip s).length :=
    collapseWsAux_length_le false (pyStrip s).data
  have h2 : (pyStrip s).length ≤ s.length := stripChars_length_le s.data
  omega

theorem length_strAppend (a b : String) : (a ++ b).length = a.length + b.length := by
  show (a.data ++ b.data).length = a.data.length + b.data.length
  exact List.length_append _ _

theorem joinSep_snoc_length (sep x : String) : ∀ (l : List String),
    (joinSep sep (l ++ [x])).length ≤ (joinSep sep l).length + sep.length + x.length := by
  intro l
  induction l with
  | nil => simp [joinSep]
  | cons s rest ih =>
    cases rest with
    | nil =>
      simp [joinSep, length_strAppend]
    | cons r rs =>
      have hstep : joinSep sep ((s :: r :: rs) ++ [x]) =
          s ++ sep ++ joinSep sep ((r :: rs) ++ [x]) := rfl
      have hstep2 : joinSep sep (s :: r :: rs) = s ++ sep ++ joinSep sep (r :: rs) := rfl
      rw [hstep, hstep2, length_strAppend, length_strAppend, length_strAppend,
        length_strAppend]
      have := ih
      omega

/-- The parts of a double-newline split, each weighted by its length plus
the two separator characters, account for the whole input plus one
final weight of two. -/
theorem splitDN_weighted_sum (cur l : List Char) :
    ((splitDoubleNewlineAux cur l).map (fun p => p.length + 2)).sum =
      cur.length + l.length + 2 := by
  induction cur, l using splitDoubleNewlineAux.induct with
  | case1 cur =>
    simp [splitDoubleNewlineAux]
  | case2 cur rest ih =>
    simp only [splitDoubleNewlineAux, List.map_cons, List.sum_cons,
      List.length_reverse, List.length_cons]
    simp only [List.length_nil] at ih
    omega
  | case3 cur c rest hne ih =>
    rw [splitDoubleNewlineAux.eq_3 cur c rest hne]
    simp only [List.length_cons] at ih ⊢
    omega

/-- Every chunk flushed by `split_into_big_chunks` meets the coarse-chunk
minimum size. -/
theorem splitBigAux_min (max_size : Nat) :
    ∀ (parts current : List String) (clen : Nat),
      ∀ c ∈ splitBigAux max_size current clen parts,
        BIG_CHUNK_MIN_SIZE ≤ c.length := by
  intro parts
  induction parts with
  | nil =>
    intro current clen c hc
    simp only [splitBigAux] at hc
    split at hc
    · split at hc
      · next hlen =>
        rcases List.mem_singleton.mp hc with rfl
        exact hlen
      · simp at hc
    · simp at hc
  | cons para rest ih =>
    intro current clen c hc
    simp only [splitBigAux] at hc
    split at hc
    · exact ih _ _ c hc
    · split at hc
      · rcases List.mem_append.mp hc with h | h
        · split at h
          · next hlen =>
            rcases List.mem_singleton.mp h with rfl
            exact hlen
          · simp at h
        · exact ih _ _ c h
      · exact ih _ _ c hc

/-- Every chunk flushed by `split_into_big_chunks` is bounded by the join
of the pending chunk plus the weighted length of the remaining parts. -/
theorem splitBigAux_max (max_size : Nat) :
    ∀ (parts current : List String) (clen : Nat),
      ∀ c ∈ splitBigAux max_size current clen parts,
        c.length ≤ (joinSep "\n\n" current).length +
          ((parts.map (fun p => p.length + 2)).sum) := by
  intro parts
  induction parts with
  | nil =>
    intro current clen c hc
    simp only [splitBigAux] at hc
    split at hc
    · split at hc
      · rcases List.mem_singleton.mp hc with rfl
        simp
      · simp at hc
    · simp at hc
  | cons para rest ih =>
    intro current clen c hc
    have hp2 : (collapseWs (pyStrip para)).length ≤ para.length :=
      collapseWs_pyStrip_length_le para
    simp only [splitBigAux] at hc
    split at hc
    · have := ih current clen c hc
      simp only [List.map_cons, List.sum_cons]
      omega
    · split at hc
      · rcases List.mem_append.mp hc with h | h
        · split at h
          · rcases List.mem_singleton.mp h with rfl
            simp only [List.map_cons, List.sum_cons]
            omega
          · simp at h
        · have := ih [collapseWs (pyStrip para)] (collapseWs (pyStrip para)).length c h
          have hone : (joinSep "\n\n" [collapseWs (pyStrip para)]).length =
              (collapseWs (pyStrip para)).length := rfl
          simp only [List.map_cons, List.sum_cons]
          omega
      · have := ih (current ++ [collapseWs (pyStrip para)])
          (clen + (collapseWs (pyStrip para)).length) c hc
        have hsnoc := joinSep_snoc_length "\n\n" (collapseWs (pyStrip para)) current
        have hsep : ("\n\n" : String).length = 2 := rfl
        simp only [List.map_cons, List.sum_cons]
        omega

/-- A text whose weighted length is below the coarse-chunk minimum yields
no coarse chunks at all. -/
theorem split_into_big_chunks_nil (text : String)
    (h : text.length + 2 < BIG_CHUNK_MIN_SIZE) :
    split_into_big_chunks text BIG_CHUNK_MAX_SIZE = [] := by
  cases hc : split_into_big_chunks text BIG_CHUNK_MAX_SIZE with
  | nil => rfl
  | cons c cs =>
    have hmem : c ∈ split_into_big_chunks text BIG_CHUNK_MAX_SIZE := by
      rw [hc]
      exact List.mem_cons_self _ _
    unfold split_into_big_chunks at hmem
    have h1 := splitBigAux_min BIG_CHUNK_MAX_SIZE _ _ _ c hmem
    have h2 := splitBigAux_max BIG_CHUNK_MAX_SIZE _ _ _ c hmem
    have h3 : (((splitDoubleNewline text).map (fun p => p.length + 2)).sum) =
        text.length + 2 := by
      unfold splitDoubleNewline
      rw [List.map_map]
      have hcomp : ((fun p => p.length + 2) ∘ String.mk) =
          (fun (p : List Char) => p.length + 2) := rfl
      rw [hcomp, splitDN_weighted_sum]
      have hlen : text.length = text.data.length := rfl
      simp only [List.length_nil]
      omega
    rw [h3] at h2
    have h4 : (joinSep "\n\n" ([] : List String)).length = 0 := rfl
    rw [h4] at h2
    omega

/--
**C5.** A chapter text shorter than the minimum chunk length (150) yields
zero chunks from both chunking strategies: the rule-based
`split_chapter_into_paragraphs` returns early on its stripped-length guard,
and `hybrid_chunk_and_extract` either returns early on its own guard or
produces no coarse chunks (each coarse chunk must reach 500 characters),
hence no output — for every LLM oracle and section store.
-/
theorem short_chapter_yields_zero_chunks (chapter_text : String)
    (hshort : chapter_text.length < MIN_PARAGRAPH_LENGTH)
    (chapter_id book_id : Option Nat) (chapter_title : Option String)
    (base_paragraph_index : Nat)
    (llm : String → Option (List SemanticParagraph))
    (sectionStore : Option (String → Nat)) :
    split_chapter_into_paragraphs chapter_text chapter_id chapter_title
        base_paragraph_index = [] ∧
    hybrid_chunk_and_extract llm sectionStore chapter_text chapter_id
        chapter_title book_id base_paragraph_index = [] := by
  have hstrip : (pyStrip chapter_text).length ≤ chapter_text.length :=
    stripChars_length_le chapter_text.data
  constructor
  · unfold split_chapter_into_paragraphs
    rw [if_pos]
    right
    unfold MIN_PARAGRAPH_LENGTH at hshort ⊢
    omega
  · unfold hybrid_chunk_and_extract
    by_cases hg : chapter_text = "" ∨ (pyStrip chapter_text).length < SMALL_CHUNK_MIN_SIZE
    · rw [if_pos hg]
    · rw [if_neg hg]
      have hnil : split_into_big_chunks chapter_text BIG_CHUNK_MAX_SIZE = [] := by
        apply split_into_big_chunks_nil
        unfold BIG_CHUNK_MIN_SIZE
        unfold MIN_PARAGRAPH_LENGTH at hshort
        omega
      rw [hnil]
      rfl

/-- Witness for C5: a chapter text of exactly 80 characters (below the
150-character minimum) yields zero chunks from both strategies. -/
theorem short_chapter_yields_zero_chunks_witness :
    (String.mk (List.replicate 80 'a')).length < MIN_PARAGRAPH_LENGTH ∧
    (split_chapter_into_paragraphs (String.mk (List.replicate 80 'a'))
        none none 0 = [] ∧
      hybrid_chunk_and_extract (fun _ => none) none
        (String.mk (List.replicate 80 'a')) none none none 0 = []) :=
  ⟨by decide,
    short_chapter_yields_zero_chunks (String.mk (List.replicate 80 'a'))
      (by decide) none none none 0 (fun _ => none) none⟩

/-! ## `src/pdf/chapter_detector.py` -/

/-- One entry of the embedded table of contents, as returned by
`doc.get_toc()`: `[level, title, page]` with a 1-indexed page. -/
structure TocEntry where
  level : Int
  title : String
  page : Int
deriving DecidableEq

/-- `DetectedChapter` with the fields of the source dataclass
(`end_page` nullable until resolved, confidence as a rational). -/
structure DetectedChapter where
  title : String
  start_page : Int
  end_page : Option Int
  level : Int
  detection_method : String
  confidence : ℚ
deriving DecidableEq

/-- The document as the detector reads it: the embedded table of contents
and the text of each page. -/
structure PdfDocument where
  toc : List TocEntry
  pages : List String
deriving DecidableEq

/-- The entry loop of `_detect_from_toc`: for each entry, the end page is
two less than the 1-indexed start page of the next entry at the same or a
shallower level (that is, the 0-indexed page immediately before that next
entry), or the last page of the document when no such entry exists; the
result is clamped so that it is at least the 0-indexed start page. -/
def detectFromTocAux (total_pages : Int) : List TocEntry → List DetectedChapter
  | [] => []
  | e :: rest =>
    let end_page := match rest.find? (fun e2 => e2.level ≤ e.level) with
      | some e2 => e2.page - 2
      | none => total_pages - 1
    let start_page_0idx := e.page - 1
    ⟨pyStrip e.title, start_page_0idx, some (max start_page_0idx end_page),
        e.level, "toc", 95 / 100⟩ ::
      detectFromTocAux total_pages rest

/-- `_detect_from_toc`. -/
def detect_from_toc (doc : PdfDocument) : List DetectedChapter :=
  if doc.toc = [] then []
  else detectFromTocAux (doc.pages.length : Int) doc.toc

/-- The per-page heading search of `_detect_from_patterns`: among the first
15 lines, the first stripped line that is non-empty, at least 3 characters
long and matches a chapter pattern.  The chapter regexes themselves
(`Chapter N`, `Part N`, numbered titles, `Appendix X`, `Section N`, tried
via `re.match` with IGNORECASE) are the external parameter `matcher`; every
theorem below holds for every choice of it. -/
def pageHeadingLine (matcher : String → Bool) (page_text : String) : Option String :=
  (((splitLines page_text).take 15).map pyStrip).find?
    (fun ls => (ls != "") && decide (3 ≤ ls.length) && matcher ls)

/-- The page loop of `_detect_from_patterns`: at most one chapter per page,
with a 0-indexed start page and an unresolved end page. -/
def patternScan (matcher : String → Bool) : Nat → List String → List DetectedChapter
  | _, [] => []
  | page_num, ptext :: rest =>
    match pageHeadingLine matcher ptext with
    | some title =>
      ⟨title, (page_num : Int), none, 1, "pattern", 7 / 10⟩ ::
        patternScan matcher (page_num + 1) rest
    | none => patternScan matcher (page_num + 1) rest

/-- The end-page fill of `_detect_from_patterns`: each chapter ends on the
page before the next detected chapter; the last extends to the final
page. -/
def fillEndPages (total_pages : Int) : List DetectedChapter → List DetectedChapter
  | [] => []
  | [c] => [{ c with end_page := some (total_pages - 1) }]
  | c :: c2 :: rest =>
    { c with end_page := some (c2.start_page - 1) } ::
      fillEndPages total_pages (c2 :: rest)

/-- `_detect_from_patterns`. -/
def detect_from_patterns (matcher : String → Bool) (doc : PdfDocument) :
    List DetectedChapter :=
  fillEndPages (doc.pages.length : Int) (patternScan matcher 0 doc.pages)

/-- `_merge_detections`: keep the table-of-contents result unless the
pattern result found strictly more chapters. -/
def merge_detections (toc_chapters pattern_chapters : List DetectedChapter) :
    List DetectedChapter :=
  if pattern_chapters.length ≤ toc_chapters.length then toc_chapters
  else pattern_chapters

/-- `_create_fallback_chapter`: the whole book as a single chapter. -/
def create_fallback_chapter (doc : PdfDocument) : List DetectedChapter :=
  [⟨"Full Book", 0, some ((doc.pages.length : Int) - 1), 1, "fallback", 1 / 2⟩]

/-- `ChapterDetector.detect_chapters`: table of contents first (accepted
outright with at least 3 entries), then pattern detection, then the merge
of both, then either alone, then the single-chapter fallback. -/
def detect_chapters (matcher : String → Bool) (doc : PdfDocument) :
    List DetectedChapter :=
  let toc_chapters := detect_from_toc doc
  if toc_chapters ≠ [] ∧ 3 ≤ toc_chapters.length then toc_chapters
  else
    let pattern_chapters := detect_from_patterns matcher doc
    if toc_chapters ≠ [] ∧ pattern_chapters ≠ [] then
      merge_detections toc_chapters pattern_chapters
    else if pattern_chapters ≠ [] then pattern_chapters
    else if toc_chapters ≠ [] then toc_chapters
    else create_fallback_chapter doc

/-- The partition property claimed for the top-level page ranges: starting
from page 0, each node begins exactly where the previous one ended plus
one, has `end_page` at least `start_page`, and the last node ends on the
final page — no gaps, no overlaps. -/
def partitionChainB (total : Int) : Int → List DetectedChapter → Bool
  | expect, [] => expect == total
  | expect, c :: rest =>
    c.start_page == expect &&
      (match c.end_page with
        | some ep => c.start_page ≤ ep && partitionChainB total (ep + 1) rest
        | none => false)

/-- The claimed partition of the whole document by the level-1 nodes. -/
def topLevelPartitionB (chapters : List DetectedChapter) (total : Int) : Bool :=
  partitionChainB total 0 (chapters.filter (fun c => c.level == 1))

/-! ## Lemmas about the chapter detector -/

/-- Every table-of-contents node is clamped so its end page is defined and
at least its start page. -/
theorem detectFromTocAux_end_ge_start (total : Int) :
    ∀ (toc : List TocEntry), ∀ c ∈ detectFromTocAux total toc,
      ∃ ep, c.end_page = some ep ∧ c.start_page ≤ ep := by
  intro toc
  induction toc with
  | nil =>
    intro c hc
    simp [detectFromTocAux] at hc
  | cons e rest ih =>
    intro c hc
    simp only [detectFromTocAux] at hc
    rcases List.mem_cons.mp hc with rfl | hm
    · exact ⟨_, rfl, le_max_left _ _⟩
    · exact ih c hm

/-- Pattern-scan start pages lie within the scanned page range. -/
theorem patternScan_start_bounds (m : String → Bool) :
    ∀ (pages : List String) (n : Nat), ∀ c ∈ patternScan m n pages,
      (n : Int) ≤ c.start_page ∧ c.start_page < (n : Int) + pages.length := by
  intro pages
  induction pages with
  | nil =>
    intro n c hc
    simp [patternScan] at hc
  | cons p rest ih =>
    intro n c hc
    simp only [patternScan] at hc
    split at hc
    · rcases List.mem_cons.mp hc with rfl | hm
      · refine ⟨le_refl _, ?_⟩
        simp only [List.length_cons]
        push_cast
        omega
      · have := ih (n + 1) c hm
        simp only [List.length_cons]
        push_cast at this ⊢
        omega
    · have := ih (n + 1) c hc
      simp only [List.length_cons]
      push_cast at this ⊢
      omega

/-- Pattern-scan start pages are strictly increasing (at most one chapter
per page, pages scanned in order). -/
theorem patternScan_chain (m : String → Bool) :
    ∀ (pages : List String) (n : Nat),
      List.Chain' (fun a b => a.start_page < b.start_page) (patternScan m n pages) := by
  intro pages
  induction pages with
  | nil =>
    intro n
    simp [patternScan]
  | cons p rest ih =>
    intro n
    simp only [patternScan]
    split
    · refine List.chain'_cons'.mpr ⟨?_, ih (n + 1)⟩
      intro b hb
      have hbmem : b ∈ patternScan m (n + 1) rest := List.mem_of_mem_head? hb
      have := (patternScan_start_bounds m rest (n + 1) b hbmem).1
      show (n : Int) < b.start_page
      push_cast at this
      omega
    · exact ih (n + 1)

/-- Filling end pages over strictly increasing start pages yields defined
end pages at or after the start pages. -/
theorem fillEndPages_end_ge_start (total : Int) :
    ∀ (cs : List DetectedChapter),
      List.Chain' (fun a b => a.start_page < b.start_page) cs →
      (∀ c ∈ cs, c.start_page < total) →
      ∀ c ∈ fillEndPages total cs, ∃ ep, c.end_page = some ep ∧ c.start_page ≤ ep := by
  intro cs
  induction cs with
  | nil =>
    intro _ _ c hc
    simp [fillEndPages] at hc
  | cons c0 rest ih =>
    intro hchain hbound c hc
    cases rest with
    | nil =>
      simp only [fillEndPages] at hc
      rcases List.mem_singleton.mp hc with rfl
      refine ⟨total - 1, rfl, ?_⟩
      have := hbound c0 (List.mem_cons_self _ _)
      show c0.start_page ≤ total - 1
      omega
    | cons c2 rs =>
      simp only [fillEndPages] at hc
      rcases List.mem_cons.mp hc with rfl | hm
      · refine ⟨c2.start_page - 1, rfl, ?_⟩
        have := (List.chain'_cons.mp hchain).1
        show c0.start_page ≤ c2.start_page - 1
        omega
      · exact ih (List.chain'_cons.mp hchain).2
          (fun x hx => hbound x (List.mem_cons_of_mem _ hx)) c hm

/-- Every pattern-detected node has a defined end page at or after its
start page. -/
theorem detect_from_patterns_end_ge_start (m : String → Bool) (doc : PdfDocument) :
    ∀ c ∈ detect_from_patterns m doc,
      ∃ ep, c.end_page = some ep ∧ c.start_page ≤ ep := by
  intro c hc
  unfold detect_from_patterns at hc
  refine fillEndPages_end_ge_start _ _ (patternScan_chain m doc.pages 0) ?_ c hc
  intro x hx
  have := (patternScan_start_bounds m doc.pages 0 x hx).2
  push_cast at this
  omega

/--
**C2 (amended).** For every non-empty document and every heading matcher,
chapter detection returns at least one structure node (falling back to a
single full-document node when both strategies fail), and every returned
node has a defined `end_page` with `end_page ≥ start_page`.  The returned
top-level page ranges do **not** partition the document in general: a table
of contents whose first entry starts after page 1 leaves a gap, and entries
sharing a start page overlap.
-/
theorem detect_chapters_nonempty_and_bounded (matcher : String → Bool)
    (doc : PdfDocument) (hpages : doc.pages ≠ []) :
    detect_chapters matcher doc ≠ [] ∧
    ∀ c ∈ detect_chapters matcher doc,
      ∃ ep, c.end_page = some ep ∧ c.start_page ≤ ep := by
  have htoc : ∀ c ∈ detect_from_toc doc,
      ∃ ep, c.end_page = some ep ∧ c.start_page ≤ ep := by
    intro c hc
    unfold detect_from_toc at hc
    split at hc
    · simp at hc
    · exact detectFromTocAux_end_ge_start _ _ c hc
  have hpat := detect_from_patterns_end_ge_start matcher doc
  have hfall : ∀ c ∈ create_fallback_chapter doc,
      ∃ ep, c.end_page = some ep ∧ c.start_page ≤ ep := by
    intro c hc
    rcases List.mem_singleton.mp hc with rfl
    refine ⟨(doc.pages.length : Int) - 1, rfl, ?_⟩
    have hlen : 1 ≤ doc.pages.length := by
      cases hp : doc.pages with
      | nil => exact absurd hp hpages
      | cons a l => simp
    show (0 : Int) ≤ (doc.pages.length : Int) - 1
    push_cast
    omega
  constructor
  · simp only [detect_chapters]
    split
    · next h => exact h.1
    · split
      · next h =>
        unfold merge_detections
        split
        · exact h.1
        · exact h.2
      · split
        · next h => exact h
        · split
          · next h => exact h
          · simp [create_fallback_chapter]
  · intro c hc
    simp only [detect_chapters] at hc
    split at hc
    · exact htoc c hc
    · split at hc
      · unfold merge_detections at hc
        split at hc
        · exact htoc c hc
        · exact hpat c hc
      · split at hc
        · exact hpat c hc
        · split at hc
          · exact htoc c hc
          · exact hfall c hc

/-- Witness for C2: a one-page document with no table of contents and no
pattern matches yields the single fallback node. -/
theorem detect_chapters_nonempty_and_bounded_witness :
    (⟨[], ["x"]⟩ : PdfDocument).pages ≠ [] ∧
    detect_chapters (fun _ => false) ⟨[], ["x"]⟩ ≠ [] :=
  ⟨by decide,
    (detect_chapters_nonempty_and_bounded (fun _ => false) ⟨[], ["x"]⟩ (by decide)).1⟩

/--
**C2 counterexample.** A 3-page document whose table of contents lists its
three level-1 chapters on pages 2, 3 and 3 is accepted outright (3 entries),
yet the returned top-level ranges `[1,1] [2,2] [2,2]` leave page 0 uncovered
and overlap on page 2: they do not partition the document.
-/
theorem detect_chapters_partition_counterexample :
    detect_chapters (fun _ => false)
        ⟨[⟨1, "A", 2⟩, ⟨1, "B", 3⟩, ⟨1, "C", 3⟩], ["", "", ""]⟩ =
      [⟨"A", 1, some 1, 1, "toc", 95 / 100⟩,
        ⟨"B", 2, some 2, 1, "toc", 95 / 100⟩,
        ⟨"C", 2, some 2, 1, "toc", 95 / 100⟩] ∧
    topLevelPartitionB
      (detect_chapters (fun _ => false)
        ⟨[⟨1, "A", 2⟩, ⟨1, "B", 3⟩, ⟨1, "C", 3⟩], ["", "", ""]⟩) 3 = false := by
  constructor
  · rfl
  · decide

/-- Index-wise characterization of the table-of-contents nodes: entry `i`
starts at its 0-indexed page and ends at the page immediately before the
next entry at the same or a shallower level (its 1-indexed page minus 2),
or at the last document page when no such entry exists, clamped to at
least the start page. -/
theorem detectFromTocAux_getElem (total : Int) :
    ∀ (toc : List TocEntry) (i : Nat) (e : TocEntry), toc[i]? = some e →
      (detectFromTocAux total toc)[i]? = some
        ⟨pyStrip e.title, e.page - 1,
          some (max (e.page - 1)
            (match (toc.drop (i + 1)).find? (fun e2 => e2.level ≤ e.level) with
              | some e2 => e2.page - 2
              | none => total - 1)),
          e.level, "toc", 95 / 100⟩ := by
  intro toc
  induction toc with
  | nil =>
    intro i e h
    simp at h
  | cons a rest ih =>
    intro i e h
    cases i with
    | zero =>
      simp only [List.getElem?_cons_zero, Option.some.injEq] at h
      subst h
      cases hf : rest.find? (fun e2 => decide (e2.level ≤ a.level)) with
      | none =>
        simp only [detectFromTocAux, List.getElem?_cons_zero, List.drop_succ_cons,
          List.drop_zero, hf]
      | some e2 =>
        simp only [detectFromTocAux, List.getElem?_cons_zero, List.drop_succ_cons,
          List.drop_zero, hf]
    | succ n =>
      simp only [List.getElem?_cons_succ] at h
      have := ih n e h
      simp only [detectFromTocAux, List.getElem?_cons_succ]
      exact this

/--
**C3.** For every embedded table of contents, each detected node ends at
the page immediately before the next entry at the same or a shallower
level — the 1-indexed page of that entry minus 2 — or at the last document
page when no such entry exists, clamped so the end page is at least the
start page; and the end-to-end scenario holds: a 3-page document whose
table of contents lists Chapter 1 on page 1 and Chapter 2 on page 2 yields,
for every heading matcher, exactly the 2 top-level nodes with 0-indexed
page ranges `[0, 0]` and `[1, 2]`.
-/
theorem toc_end_page_rule :
    (∀ (toc : List TocEntry) (pages : List String) (i : Nat) (e : TocEntry),
      toc[i]? = some e →
      (detect_from_toc ⟨toc, pages⟩)[i]? = some
        ⟨pyStrip e.title, e.page - 1,
          some (max (e.page - 1)
            (match (toc.drop (i + 1)).find? (fun e2 => e2.level ≤ e.level) with
              | some e2 => e2.page - 2
              | none => (pages.length : Int) - 1)),
          e.level, "toc", 95 / 100⟩) ∧
    (∀ matcher : String → Bool,
      detect_chapters matcher
          ⟨[⟨1, "Chapter 1", 1⟩, ⟨1, "Chapter 2", 2⟩], ["", "", ""]⟩ =
        [⟨"Chapter 1", 0, some 0, 1, "toc", 95 / 100⟩,
          ⟨"Chapter 2", 1, some 2, 1, "toc", 95 / 100⟩]) := by
  constructor
  · intro toc pages i e h
    have hne : toc ≠ [] := by
      intro hcon
      rw [hcon] at h
      simp at h
    unfold detect_from_toc
    rw [if_neg hne]
    exact detectFromTocAux_getElem (pages.length : Int) toc i e h
  · intro matcher
    rfl

/-- Witness for C3: the first entry of the scenario table of contents is
characterized as the node `[0, 0]`, and the scenario itself at a concrete
matcher. -/
theorem toc_end_page_rule_witness :
    ([⟨1, "Chapter 1", 1⟩, ⟨1, "Chapter 2", 2⟩] : List TocEntry)[0]? =
      some ⟨1, "Chapter 1", 1⟩ ∧
    (detect_from_toc ⟨[⟨1, "Chapter 1", 1⟩, ⟨1, "Chapter 2", 2⟩],
        ["", "", ""]⟩)[0]? =
      some ⟨"Chapter 1", 0, some 0, 1, "toc", 95 / 100⟩ :=
  ⟨by decide,
    toc_end_page_rule.1 [⟨1, "Chapter 1", 1⟩, ⟨1, "Chapter 2", 2⟩] ["", "", ""]
      0 ⟨1, "Chapter 1", 1⟩ (by decide)⟩
